import Mathlib

/-!
Verification development for the MemoryKit landing-page repository.

The repository is a static front-end: a worker-based OBJ mesh parser, a
Three.js scan-reveal brain scene, a scroll-linked intensity effect, and a
waitlist form controller.  This file gives a shallow embedding of those
modules (translated from the JavaScript sources) and proves the spec claims
about them.

Modelling conventions:
* JavaScript numbers are modelled as `Option ℚ` (`none` plays the role of
  `NaN` / `undefined`; both coerce to `NaN` when written into a
  `Float32Array`, so conflating them at the output boundary is faithful).
* JavaScript strings are processed as `List Char` (the Lean `String` type is
  only an entry/exit boundary), so that every operation reduces
  structurally in the kernel.
* The render loop and DOM event handlers are embedded as explicit state
  transformers; traces are lists of events folded over the state.
-/

namespace MemoryKit

/-! ## JavaScript primitives modelled on character lists -/

/-- JavaScript number: `none` is `NaN` (or `undefined` read out of an array). -/
abbrev JsNum := Option ℚ

/-- The whitespace class used by `String.prototype.trim` and the regexes
`/\s+/`, `/\r?\n/` boundaries: space, tab, LF, CR, vertical tab, form feed,
NBSP.  (Other exotic Unicode space code points are not modelled; none of the
claims involve them.) -/
def wsChar (c : Char) : Bool :=
  c = ' ' || c = '\t' || c = '\n' || c = '\r' || c = '\x0b' || c = '\x0c' || c = ' '

/-- Model of `String.prototype.trim`: drop the whitespace prefix and suffix. -/
def trimChars (cs : List Char) : List Char :=
  ((cs.dropWhile wsChar).reverse.dropWhile wsChar).reverse

/-- ASCII lowering, as done by `String.prototype.toLowerCase` on ASCII input
(non-ASCII case mappings are not modelled; no claim involves them). -/
def charToLower (c : Char) : Char :=
  if 'A' ≤ c ∧ c ≤ 'Z' then Char.ofNat (c.toNat + 32) else c

/-- Model of `text.split(sep)` for a single-character separator (used for `"/"` and,
together with `stripCr`, for the `/\r?\n/` line split). -/
def splitOnChar (sep : Char) : List Char → List (List Char)
  | [] => [[]]
  | c :: rest =>
    let r := splitOnChar sep rest
    if c = sep then [] :: r
    else
      match r with
      | t :: ts => (c :: t) :: ts
      | [] => [[c]]

/-- Drop one trailing CR: splitting on `'\n'` and then stripping a trailing
`'\r'` from each piece is exactly `text.split(/\r?\n/)`. -/
def stripCr (cs : List Char) : List Char :=
  if cs.getLast? = some '\r' then cs.dropLast else cs

/-- The line split `text.split(/\r?\n/)` from the worker. -/
def splitLines (text : String) : List (List Char) :=
  (splitOnChar '\n' text.data).map stripCr

/-- Tokenizer worker for `splitWsChars`: `cur` is the (reversed) token being
accumulated. -/
def splitWsAux (cur : List Char) (cs : List Char) : List (List Char) :=
  match cs with
  | [] => if cur = [] then [] else [cur.reverse]
  | c :: rest =>
    if wsChar c then (if cur = [] then [] else [cur.reverse]) ++ splitWsAux [] rest
    else splitWsAux (c :: cur) rest

/-- Model of `trim.split(/\s+/)` on an already-trimmed string: the list of maximal
whitespace-free tokens (on a trimmed nonempty input, exactly what the
JavaScript split returns). -/
def splitWsChars (cs : List Char) : List (List Char) :=
  splitWsAux [] cs

/-- Digit run to a natural number (helper for the two numeric parsers). -/
def digitsToNat (cs : List Char) : ℕ :=
  cs.foldl (fun a c => a * 10 + (c.toNat - 48)) 0

/-- JavaScript `parseInt(str, 10)` on a whitespace-free token: optional sign,
then the longest digit prefix; `NaN` (i.e. `none`) when there is no digit.
(The `0x` prefix handling of `parseInt` is irrelevant at radix 10.) -/
def parseIntJs (cs : List Char) : Option ℤ :=
  match cs with
  | '-' :: r =>
    if r.takeWhile Char.isDigit = [] then none
    else some (-(digitsToNat (r.takeWhile Char.isDigit) : ℤ))
  | '+' :: r =>
    if r.takeWhile Char.isDigit = [] then none
    else some (digitsToNat (r.takeWhile Char.isDigit) : ℤ)
  | r =>
    if r.takeWhile Char.isDigit = [] then none
    else some (digitsToNat (r.takeWhile Char.isDigit) : ℤ)

/-- JavaScript `parseFloat` on a whitespace-free token: optional sign, digits,
optional decimal point and fraction digits; `NaN` when no digit is found.
Trailing garbage is ignored, as `parseFloat` does.  (Exponent suffixes are
not modelled; no claim inspects parsed float values.) -/
def parseFloatJs (cs : List Char) : JsNum :=
  match cs with
  | '-' :: r => (parseFloatMag r).map (fun q => -q)
  | '+' :: r => parseFloatMag r
  | r => parseFloatMag r
where
  parseFloatMag (r : List Char) : JsNum :=
    let intPart := r.takeWhile Char.isDigit
    let rest := r.dropWhile Char.isDigit
    let fracPart :=
      match rest with
      | '.' :: r2 => r2.takeWhile Char.isDigit
      | _ => []
    if intPart = [] ∧ fracPart = [] then none
    else some ((digitsToNat intPart : ℚ) + (digitsToNat fracPart : ℚ) / (10 : ℚ) ^ fracPart.length)

/-! ## The OBJ mesh parser (worker `self.onmessage`, `objParser.worker.js`) -/

/-- Accumulator state of the worker parser: the flat `v` / `vn` arrays and
the expanded output arrays. -/
structure ObjState where
  v : List JsNum
  vn : List JsNum
  outPositions : List JsNum
  outNormals : List JsNum
deriving DecidableEq, Repr

/-- Source `parseVertexIndex(str)`: `n < 0 ? v.length / 3 + n : n - 1` (the division
is exact JavaScript number division, hence rational here). -/
def parseVertexIndex (v : List JsNum) (tok : List Char) : JsNum :=
  match parseIntJs tok with
  | none => none
  | some n => if n < 0 then some ((v.length : ℚ) / 3 + (n : ℚ)) else some ((n : ℚ) - 1)

/-- Source `parseNormalIndex(str)`: same shape over the `vn` array. -/
def parseNormalIndex (vn : List JsNum) (tok : List Char) : JsNum :=
  match parseIntJs tok with
  | none => none
  | some n => if n < 0 then some ((vn.length : ℚ) / 3 + (n : ℚ)) else some ((n : ℚ) - 1)

/-- JavaScript array read `l[q]`: `undefined` (here `none`) unless `q` is a
nonnegative integer inside the bounds. -/
def jsGetElem (l : List JsNum) (q : JsNum) : JsNum :=
  match q with
  | none => none
  | some q =>
    if q.den = 1 ∧ 0 ≤ q.num then ((l.get? q.num.toNat).getD none) else none

/-- The index expression `vi * 3 + k` (propagating `NaN`). -/
def jsMul3Add (q : JsNum) (k : ℚ) : JsNum :=
  q.map (fun x => x * 3 + k)

/-- One face-vertex reference: resolved vertex index and normal index (the
source uses the plain number `-1` as the missing-normal sentinel). -/
structure Corner where
  vi : JsNum
  ni : JsNum
deriving DecidableEq, Repr

/-- The JavaScript comparison `ni >= 0` (false on `NaN`). -/
def jsGe0 : JsNum → Bool
  | none => false
  | some q => decide (0 ≤ q)

/-- Parse one face token `p` of a face line: `p.split("/")`, vertex index from
`segs[0]`, normal index from `segs[2]` when present and nonempty, else `-1`. -/
def parseFaceVert (v vn : List JsNum) (tok : List Char) : Corner :=
  let segs := splitOnChar '/' tok
  let vi := parseVertexIndex v (segs.headD [])
  let s2 := (segs.get? 2).getD []
  let ni := if s2 ≠ [] then parseNormalIndex vn s2 else some (-1)
  ⟨vi, ni⟩

/-- Fan triangulation: for `t = 1 .. verts.length - 2` the triangle
`(verts[0], verts[t], verts[t+1])`, flattened to its three corners. -/
def fanCorners (verts : List Corner) : List Corner :=
  match verts with
  | [] => []
  | v0 :: rest => (rest.zip rest.tail).flatMap (fun bc => [v0, bc.1, bc.2])

/-- The push `outPositions.push(v[vi*3], v[vi*3+1], v[vi*3+2])` for one corner. -/
def cornerPositions (v : List JsNum) (c : Corner) : List JsNum :=
  [jsGetElem v (jsMul3Add c.vi 0), jsGetElem v (jsMul3Add c.vi 1), jsGetElem v (jsMul3Add c.vi 2)]

/-- The normal triple pushed for one corner: the referenced `vn` triple when
`ni >= 0`, otherwise the zero vector. -/
def cornerNormals (vn : List JsNum) (c : Corner) : List JsNum :=
  if jsGe0 c.ni then
    [jsGetElem vn (jsMul3Add c.ni 0), jsGetElem vn (jsMul3Add c.ni 1), jsGetElem vn (jsMul3Add c.ni 2)]
  else [some 0, some 0, some 0]

/-- One iteration of the worker line loop. -/
def processLine (st : ObjState) (line : List Char) : ObjState :=
  let t := trimChars line
  if t = [] then st
  else if t.head? = some '#' then st
  else
    match splitWsChars t with
    | [] => st
    | key :: rest =>
      if key = ['v'] then
        match rest with
        | a :: b :: c :: _ =>
          { st with v := st.v ++ [parseFloatJs a, parseFloatJs b, parseFloatJs c] }
        | _ => st
      else if key = ['v', 'n'] then
        match rest with
        | a :: b :: c :: _ =>
          { st with vn := st.vn ++ [parseFloatJs a, parseFloatJs b, parseFloatJs c] }
        | _ => st
      else if key = ['f'] then
        match rest with
        | _ :: _ :: _ :: _ =>
          let verts := rest.map (parseFaceVert st.v st.vn)
          let corners := fanCorners verts
          { st with
            outPositions := st.outPositions ++ corners.flatMap (cornerPositions st.v),
            outNormals := st.outNormals ++ corners.flatMap (cornerNormals st.vn) }
        | _ => st
      else st

/-- The empty accumulator the worker starts from. -/
def initialObjState : ObjState := ⟨[], [], [], []⟩

/-- The whole parse: fold the line loop over `text.split(/\r?\n/)`. -/
def parseOBJ (text : String) : ObjState :=
  (splitLines text).foldl processLine initialObjState

/-! ## The worker message protocol -/

/-- The data field of the message received by the worker: either a string or
anything else (the worker only distinguishes these two cases). -/
inductive WorkerData where
  | str (s : String)
  | nonString
deriving DecidableEq

/-- A message posted back by the worker. -/
inductive WorkerMsg where
  | error (msg : String)
  | result (positions normals : List JsNum)
deriving DecidableEq

/-- Source `self.onmessage`: the list of `postMessage` calls performed for one
received message, in order. -/
def onmessage (d : WorkerData) : List WorkerMsg :=
  match d with
  | .nonString => [.error ("Expected string")]
  | .str text =>
    let st := parseOBJ text
    [.result st.outPositions st.outNormals]

/-! ## The scan-reveal state machine (`initBrainScene` / `render`)

The scene keeps `scanState = { phase, scanY, scanSpeed, maxY, startTime }`.
Each render frame, while `phase === "scanning"`, advances `scanY` by
`scanSpeed * dt` and flips the phase to `"complete"` when `scanY > maxY`.
Asynchronously, the successful worker callback resets `scanY`/`maxY` from the
mesh bounding box (it never touches `phase`); a fetch or worker failure
changes nothing (the scene soft-fails on the placeholder).  The `startTime`
field is written once and never read, so it is omitted here. -/

inductive ScanPhase where
  | scanning
  | complete
deriving DecidableEq, Repr

structure ScanState where
  phase : ScanPhase
  scanY : ℚ
  scanSpeed : ℚ
  maxY : ℚ
deriving DecidableEq, Repr

/-- The initial `scanState` of `initBrainScene`. -/
def initialScanState : ScanState :=
  { phase := .scanning, scanY := -120, scanSpeed := 80, maxY := 120 }

/-- The scan-animation block of one `render(now)` frame with elapsed time
`dt` seconds. -/
def scanFrame (s : ScanState) (dt : ℚ) : ScanState :=
  if s.phase = ScanPhase.scanning then
    let y := s.scanY + s.scanSpeed * dt
    if y > s.maxY then { s with scanY := y, phase := .complete }
    else { s with scanY := y }
  else s

/-- The external events that touch `scanState` during the life of a scene
instance. -/
inductive SceneEvent where
  | frame (dt : ℚ)
  | meshLoaded (bboxMinY bboxMaxY : ℚ)
  | loadFailed
deriving DecidableEq, Repr

/-- Effect of one event on `scanState`: a render frame runs `scanFrame`; the
worker success callback sets `scanY = bbox.min.y - 10` and
`maxY = bbox.max.y + 10`; fetch/worker failure leaves the state unchanged. -/
def scanEvent (s : ScanState) (e : SceneEvent) : ScanState :=
  match e with
  | .frame dt => scanFrame s dt
  | .meshLoaded bmin bmax => { s with scanY := bmin - 10, maxY := bmax + 10 }
  | .loadFailed => s

/-- Final state after a list of events. -/
def scanRun (s : ScanState) (es : List SceneEvent) : ScanState :=
  es.foldl scanEvent s

/-- The full trace of states visited (initial state included). -/
def scanTrace (s : ScanState) (es : List SceneEvent) : List ScanState :=
  List.scanl scanEvent s es

/-- Number of adjacent phase changes along a trace. -/
def phaseChanges : List ScanState → ℕ
  | a :: b :: rest => (if a.phase ≠ b.phase then 1 else 0) + phaseChanges (b :: rest)
  | _ => 0

/-! ## Decimation (`decimateForPoints`) -/

/-- One position or normal triple of a buffer attribute. -/
abbrev Triple := ℚ × ℚ × ℚ

/-- The subset of a `THREE.BufferGeometry` the decimator touches. -/
structure BufferGeometry where
  position : Option (List Triple)
  normal : Option (List Triple)
deriving DecidableEq, Repr

/-- Index sequence of the loop `for (let i = 0; i < count; i += step)`.
(For `step = 0` the JavaScript loop would not terminate; the guard makes the
Lean function total, and every claim assumes `step ≥ 1`.) -/
def decimateIdx (count step i : ℕ) : List ℕ :=
  if h : i < count ∧ 0 < step then i :: decimateIdx count step (i + step) else []
termination_by count - i
decreasing_by omega

/-- Source `decimateForPoints(geometry, step)`: keep every `step`-th triple of the
position attribute, and of the normal attribute when present; `null` when
the geometry has no position attribute.  (The loop bound is the position
count, so an in-bounds read never hits the `(0,0,0)` default.) -/
def decimateForPoints (g : BufferGeometry) (step : ℕ) : Option BufferGeometry :=
  match g.position with
  | none => none
  | some pos =>
    let idxs := decimateIdx pos.length step 0
    let outPos := idxs.map (fun i => pos.getD i (0, 0, 0))
    let outNorm := g.normal.map (fun norm => idxs.map (fun i => norm.getD i (0, 0, 0)))
    some { position := some outPos, normal := outNorm }

/-! ## Email validation and the waitlist form controller (`waitlistForm.js`) -/

/-- A character matching the regex class `[^\s@]`. -/
def okChar (c : Char) : Bool :=
  !wsChar c && c ≠ '@'

/-- Backtracking matcher for `p+` followed by continuation `k`, after at
least one character has been consumed: either hand over to `k` here or
consume one more `okChar`. -/
def plusSegAux (k : List Char → Bool) : List Char → Bool
  | [] => k []
  | c :: rest => k (c :: rest) || (okChar c && plusSegAux k rest)

/-- Backtracking matcher for `[^\s@]+` followed by continuation `k`. -/
def plusSeg (k : List Char → Bool) : List Char → Bool
  | [] => false
  | c :: rest => okChar c && plusSegAux k rest

/-- Matcher for a literal character followed by continuation `k`. -/
def charSeg (ch : Char) (k : List Char → Bool) : List Char → Bool
  | c :: rest => c = ch && k rest
  | [] => false

/-- The anchored regex `^[^\s@]+@[^\s@]+\.[^\s@]+$`, segment by segment. -/
def emailRegex : List Char → Bool :=
  plusSeg (charSeg '@' (plusSeg (charSeg '.' (plusSeg (fun cs => cs.isEmpty)))))

/-- Source `isValidEmail(value)`: test the regex against
`String(value).toLowerCase().trim()`. -/
def isValidEmail (value : String) : Bool :=
  emailRegex (trimChars (value.data.map charToLower))

/-- The DOM state the submit handler reads and writes.  `rowDisplay` and
`noteDisplay` are `none` when the optional `formRow` / `noteElement`
arguments are `null` (the handler then skips them), otherwise they hold the
inline `display` style value. -/
structure FormUiState where
  messageText : String
  messageClasses : List String
  messageDisplay : String
  emailClasses : List String
  rowDisplay : Option String
  noteDisplay : Option String
deriving DecidableEq, Repr

/-- Model of `classList.add`: append unless already present. -/
def addClass (cs : List String) (c : String) : List String :=
  if c ∈ cs then cs else cs ++ [c]

/-- Model of `classList.remove`. -/
def removeClass (cs : List String) (c : String) : List String :=
  cs.filter (fun x => x ≠ c)

/-- Everything observable about one run of the submit handler. -/
structure SubmitOutcome where
  state : FormUiState
  prevented : Bool
  stoppedImmediate : Bool
  timerDelayMs : Option ℕ
deriving DecidableEq, Repr

def waitlistErrorText : String := "Please enter a valid email address."

def waitlistSigningUpText : String := "Signing up…"

def waitlistConfirmText : String :=
  "You\x27re on the list. We\x27ll only email when there\x27s something meaningful."

/-- The `submit` listener of `initWaitlistForm` (capture-phase variant of
`waitlistForm.js`): clear previous feedback, then either block an invalid
submission with an inline error, or show the interim message, hide the
optional row/note, and schedule the confirmation message after 1500 ms. -/
def submitHandler (st : FormUiState) (emailValue : String) : SubmitOutcome :=
  let email := (trimChars emailValue.data).asString
  let st1 : FormUiState :=
    { st with
      messageText := "",
      messageClasses :=
        removeClass (removeClass st.messageClasses ("mk-waitlist-message--error"))
          ("mk-waitlist-message--success"),
      emailClasses := removeClass st.emailClasses ("mk-input--error") }
  if !isValidEmail email then
    { state :=
        { st1 with
          emailClasses := addClass st1.emailClasses ("mk-input--error"),
          messageText := waitlistErrorText,
          messageClasses := addClass st1.messageClasses ("mk-waitlist-message--error"),
          messageDisplay := "block",
          rowDisplay := st1.rowDisplay.map (fun _ => ""),
          noteDisplay := st1.noteDisplay.map (fun _ => "") },
      prevented := true, stoppedImmediate := true, timerDelayMs := none }
  else
    { state :=
        { st1 with
          messageText := waitlistSigningUpText,
          messageClasses := addClass st1.messageClasses ("mk-waitlist-message--success"),
          messageDisplay := "block",
          rowDisplay := st1.rowDisplay.map (fun _ => "none"),
          noteDisplay := st1.noteDisplay.map (fun _ => "none") },
      prevented := false, stoppedImmediate := false, timerDelayMs := some 1500 }

/-- The `setTimeout` callback scheduled on a valid submission. -/
def confirmTimerCallback (st : FormUiState) : FormUiState :=
  { st with
    messageText := waitlistConfirmText,
    messageClasses :=
      addClass (removeClass st.messageClasses ("mk-waitlist-message--error"))
        ("mk-waitlist-message--success"),
    messageDisplay := "block",
    rowDisplay := st.rowDisplay.map (fun _ => "none"),
    noteDisplay := st.noteDisplay.map (fun _ => "none") }

/-! ## Scroll effects (`initScrollEffects`) -/

/-- The expression `window.innerHeight || 1`. -/
def scrollVh (innerHeight : ℚ) : ℚ :=
  if innerHeight = 0 then 1 else innerHeight

/-- The distance `Math.abs(center - vh / 2)` with `center = rect.top + rect.height / 2`. -/
def scrollDistance (rectTop rectHeight innerHeight : ℚ) : ℚ :=
  |rectTop + rectHeight / 2 - scrollVh innerHeight / 2|

/-- The value `intensity = 1 - Math.min(distance / (vh / 2), 1)`. -/
def scrollIntensity (rectTop rectHeight innerHeight : ℚ) : ℚ :=
  1 - min (scrollDistance rectTop rectHeight innerHeight / (scrollVh innerHeight / 2)) 1

/-! ## Pathway line opacity (`render`, complete phase) -/

/-- JavaScript truncating conversion (`Math.trunc`, the rounding used by the
`%` operator). -/
def jsTruncQ (q : ℚ) : ℤ :=
  if 0 ≤ q then ⌊q⌋ else ⌈q⌉

/-- The JavaScript remainder operator `a % b` on numbers. -/
def jsMod (a b : ℚ) : ℚ :=
  a - b * (jsTruncQ (a / b) : ℚ)

/-- The clock `pathTime = (cycleTime - pathway.delay + cycleDuration) % cycleDuration`. -/
def pathTimeOf (cycleTime delay cycleDuration : ℚ) : ℚ :=
  jsMod (cycleTime - delay + cycleDuration) cycleDuration

/-- The field `opacity: 0` in the `LineBasicMaterial` constructed for each pathway. -/
def lineMaterialInitialOpacity : ℚ := 0

/-- Opacity assigned to a pathway line on a frame in the complete phase:
`sin(progress * π) * 0.7` during fade-in, `0.7 * (1 - fadeProgress)` during
the half-second fade-out window, `0` otherwise. -/
noncomputable def pathwayOpacity (pathTime duration : ℚ) : ℝ :=
  if pathTime < duration then
    Real.sin (((pathTime / duration : ℚ) : ℝ) * Real.pi) * 0.7
  else if pathTime < duration + 0.5 then
    ((0.7 * (1 - (pathTime - duration) / 0.5) : ℚ) : ℝ)
  else 0

/-! ## Helper lemmas -/

lemma length_flatMap_const {α β : Type} (l : List α) (f : α → List β) (k : ℕ)
    (h : ∀ a ∈ l, (f a).length = k) : (l.flatMap f).length = k * l.length := by
  induction l with
  | nil => simp
  | cons a t ih =>
    simp only [List.flatMap_cons, List.length_append, List.length_cons]
    rw [h a (by simp), ih (fun x hx => h x (by simp [hx]))]
    ring

lemma cornerPositions_length (v : List JsNum) (c : Corner) :
    (cornerPositions v c).length = 3 := rfl

lemma cornerNormals_length (vn : List JsNum) (c : Corner) :
    (cornerNormals vn c).length = 3 := by
  unfold cornerNormals; split <;> rfl

lemma fanCorners_length (verts : List Corner) :
    (fanCorners verts).length = 3 * (verts.length - 2) := by
  cases verts with
  | nil => rfl
  | cons v0 rest =>
    rw [fanCorners,
      length_flatMap_const (rest.zip rest.tail) (fun bc => [v0, bc.1, bc.2]) 3
        (by intro a _; rfl),
      List.length_zip, List.length_tail]
    have hmin : min rest.length (rest.length - 1) = rest.length - 1 :=
      min_eq_right (by omega)
    rw [hmin, List.length_cons]
    omega

lemma decimateIdx_length (count step i : ℕ) (hstep : 0 < step) :
    (decimateIdx count step i).length = (count - i + step - 1) / step := by
  rw [decimateIdx]
  split
  case isTrue h =>
    rw [List.length_cons, decimateIdx_length count step (i + step) hstep]
    rcases le_or_lt (i + step) count with hle | hlt
    · have heq : count - i + step - 1 = (count - (i + step) + step - 1) + step := by omega
      rw [heq, Nat.add_div_right _ hstep]
    · have h2 : count - (i + step) = 0 := by omega
      have h3 : (0 + step - 1) / step = 0 := Nat.div_eq_of_lt (by omega)
      have h5 : count - i + step - 1 = (count - i - 1) + step := by omega
      have h6 : (count - i - 1) / step = 0 := Nat.div_eq_of_lt (by omega)
      rw [h2, h3, h5, Nat.add_div_right _ hstep, h6]
  case isFalse h =>
    have h2 : count - i = 0 := by omega
    rw [h2]
    have h3 : (0 + step - 1) / step = 0 := Nat.div_eq_of_lt (by omega)
    rw [h3]
    rfl
termination_by count - i
decreasing_by omega

lemma mem_addClass (cs : List String) (c : String) : c ∈ addClass cs c := by
  unfold addClass
  split
  case isTrue h => exact h
  case isFalse h => simp

lemma not_mem_removeClass (cs : List String) (c : String) : c ∉ removeClass cs c := by
  intro h
  rcases List.mem_filter.mp h with ⟨-, h2⟩
  simp at h2

/-! ## Claim theorems -/

/-- C8: the email validator accepts `user@example.com` and rejects `user@`,
`@example.com`, `plain-text` and the empty string. -/
theorem email_validator_examples :
    isValidEmail "user@example.com" = true ∧
    isValidEmail "user@" = false ∧
    isValidEmail "@example.com" = false ∧
    isValidEmail "plain-text" = false ∧
    isValidEmail "" = false := by
  refine ⟨?_, ?_, ?_, ?_, ?_⟩ <;> rfl

/-- C6: for one received message the worker posts back exactly one reply; the
reply is an error descriptor exactly when the received data is not a string,
and otherwise the single success message carrying the output buffers. -/
theorem worker_single_reply :
    (∀ d, (onmessage d).length = 1) ∧
    (∀ d, (∃ m, WorkerMsg.error m ∈ onmessage d) ↔ d = WorkerData.nonString) ∧
    (∀ s, onmessage (WorkerData.str s) =
      [WorkerMsg.result (parseOBJ s).outPositions (parseOBJ s).outNormals]) := by
  refine ⟨?_, ?_, ?_⟩
  · intro d; cases d <;> rfl
  · intro d
    cases d with
    | str s =>
      constructor
      · rintro ⟨m, hm⟩
        simp [onmessage] at hm
      · intro h
        exact absurd h (by simp)
    | nonString =>
      constructor
      · intro _; rfl
      · intro _
        exact ⟨"Expected string", by simp [onmessage]⟩
  · intro s; rfl

/-- C6 witness: the theorem applied at a concrete message. -/
theorem worker_single_reply_witness :
    (onmessage (WorkerData.str "v 1 2 3")).length = 1 ∧
    ((∃ m, WorkerMsg.error m ∈ onmessage WorkerData.nonString) ↔ True) := by
  constructor
  · exact worker_single_reply.1 (WorkerData.str "v 1 2 3")
  · simp only [iff_true]
    exact (worker_single_reply.2.1 WorkerData.nonString).mpr rfl

/-- C4: in the face-index resolvers, a negative index `n` resolves to
zero-based position `currentCount + n` (where `currentCount` is the number of
vertex — resp. normal — triples accumulated so far, i.e. a third of the flat
array length), and a positive index `n` resolves to zero-based position
`n - 1`. -/
theorem face_index_resolution (v vn : List JsNum) (tok : List Char) (n : ℤ)
    (hparse : parseIntJs tok = some n) :
    (n < 0 → 3 ∣ v.length →
      parseVertexIndex v tok = some (((v.length / 3 : ℕ) : ℚ) + (n : ℚ))) ∧
    (0 < n → parseVertexIndex v tok = some ((n : ℚ) - 1)) ∧
    (n < 0 → 3 ∣ vn.length →
      parseNormalIndex vn tok = some (((vn.length / 3 : ℕ) : ℚ) + (n : ℚ))) ∧
    (0 < n → parseNormalIndex vn tok = some ((n : ℚ) - 1)) := by
  have key : ∀ l : List JsNum, 3 ∣ l.length →
      ((l.length : ℚ) / 3 : ℚ) = ((l.length / 3 : ℕ) : ℚ) := by
    intro l hdvd
    rcases hdvd with ⟨k, hk⟩
    rw [hk]
    rw [Nat.mul_div_cancel_left k (by norm_num)]
    push_cast
    ring
  refine ⟨?_, ?_, ?_, ?_⟩
  · intro hn hdvd
    unfold parseVertexIndex
    rw [hparse]
    simp only [if_pos hn]
    rw [key v hdvd]
  · intro hn
    unfold parseVertexIndex
    rw [hparse]
    simp only [if_neg (by omega : ¬n < 0)]
  · intro hn hdvd
    unfold parseNormalIndex
    rw [hparse]
    simp only [if_pos hn]
    rw [key vn hdvd]
  · intro hn
    unfold parseNormalIndex
    rw [hparse]
    simp only [if_neg (by omega : ¬n < 0)]

/-- C4 witness: `-1` refers to the last of three vertices seen so far, and the
positive index `2` resolves to zero-based position `1`. -/
theorem face_index_resolution_witness :
    parseVertexIndex [some 5, some 6, some 7] ['-', '1'] = some 0 ∧
    parseVertexIndex [] ['2'] = some 1 := by
  constructor
  · have h := (face_index_resolution [some 5, some 6, some 7] [] ['-', '1'] (-1)
      (by decide)).1 (by decide) (by decide)
    rw [h]; norm_num
  · have h := (face_index_resolution [] [] ['2'] 2 (by decide)).2.1 (by decide)
    rw [h]; norm_num

/-- C5: decimating a geometry whose position attribute holds `M` triples with
step `N ≥ 1` yields exactly `⌈M / N⌉ = (M + N - 1) / N` output position
triples, and when `M > 0` the first output triple is the input triple at
index 0. -/
theorem decimation_claim (g : BufferGeometry) (step : ℕ) (pos : List Triple)
    (hstep : 0 < step) (hpos : g.position = some pos) :
    ∃ out, decimateForPoints g step = some out ∧
      ∃ outPos, out.position = some outPos ∧
        outPos.length = (pos.length + step - 1) / step ∧
        (pos ≠ [] → outPos.head? = pos.head?) := by
  refine ⟨_, by rw [decimateForPoints, hpos], _, rfl, ?_, ?_⟩
  · rw [List.length_map, decimateIdx_length _ _ _ hstep, Nat.sub_zero]
  · intro hne
    have hlen : 0 < pos.length := List.length_pos.mpr hne
    rw [decimateIdx, dif_pos ⟨hlen, hstep⟩, List.map_cons]
    cases pos with
    | nil => exact absurd rfl hne
    | cons p t => rfl

/-- C5 witness: decimating five triples with step 2 yields three triples whose
head is the input head. -/
theorem decimation_claim_witness :
    ∃ out, decimateForPoints ⟨some [(0, 0, 0), (1, 1, 1), (2, 2, 2), (3, 3, 3), (4, 4, 4)], none⟩ 2
        = some out ∧
      ∃ outPos, out.position = some outPos ∧
        outPos.length = ([(0, 0, 0), (1, 1, 1), (2, 2, 2), (3, 3, 3), (4, 4, 4)] : List Triple).length.add 1 / 2 ∧
        (([(0, 0, 0), (1, 1, 1), (2, 2, 2), (3, 3, 3), (4, 4, 4)] : List Triple) ≠ [] →
          outPos.head? = some (0, 0, 0)) := by
  have h := decimation_claim
    ⟨some [(0, 0, 0), (1, 1, 1), (2, 2, 2), (3, 3, 3), (4, 4, 4)], none⟩ 2
    [(0, 0, 0), (1, 1, 1), (2, 2, 2), (3, 3, 3), (4, 4, 4)] (by norm_num) rfl
  simpa using h

/-- C9: the scroll intensity is 1 exactly when the element center distance to
the viewport center is 0, it is 0 whenever that distance is at least half the
viewport height, and it always lies in `[0, 1]` (for any nonnegative reported
viewport height). -/
theorem scroll_intensity_claim (rectTop rectHeight innerHeight : ℚ)
    (hvh : 0 ≤ innerHeight) :
    (scrollIntensity rectTop rectHeight innerHeight = 1 ↔
      scrollDistance rectTop rectHeight innerHeight = 0) ∧
    (scrollVh innerHeight / 2 ≤ scrollDistance rectTop rectHeight innerHeight →
      scrollIntensity rectTop rectHeight innerHeight = 0) ∧
    0 ≤ scrollIntensity rectTop rectHeight innerHeight ∧
    scrollIntensity rectTop rectHeight innerHeight ≤ 1 := by
  have hhp : 0 < scrollVh innerHeight := by
    by_cases h0 : innerHeight = 0
    · simp [scrollVh, h0]
    · simp only [scrollVh, if_neg h0]
      exact lt_of_le_of_ne hvh (Ne.symm h0)
  have hh2 : 0 < scrollVh innerHeight / 2 := by positivity
  have hd0 : 0 ≤ scrollDistance rectTop rectHeight innerHeight := abs_nonneg _
  have hq0 : 0 ≤ scrollDistance rectTop rectHeight innerHeight / (scrollVh innerHeight / 2) :=
    div_nonneg hd0 hh2.le
  refine ⟨?_, ?_, ?_, ?_⟩
  · unfold scrollIntensity
    constructor
    · intro h1
      have hmin : min (scrollDistance rectTop rectHeight innerHeight /
          (scrollVh innerHeight / 2)) 1 = 0 := by linarith
      rcases min_eq_iff.mp hmin with ⟨hz, -⟩ | ⟨hz, -⟩
      · rcases div_eq_zero_iff.mp hz with hz2 | hz2
        · exact hz2
        · exact absurd hz2 (by linarith)
      · exact absurd hz one_ne_zero
    · intro h1
      rw [h1]
      norm_num
  · intro hge
    unfold scrollIntensity
    have hone : 1 ≤ scrollDistance rectTop rectHeight innerHeight /
        (scrollVh innerHeight / 2) := (one_le_div hh2).mpr hge
    rw [min_eq_right hone]
    ring
  · unfold scrollIntensity
    have : min (scrollDistance rectTop rectHeight innerHeight /
        (scrollVh innerHeight / 2)) 1 ≤ 1 := min_le_right _ _
    linarith
  · unfold scrollIntensity
    have : 0 ≤ min (scrollDistance rectTop rectHeight innerHeight /
        (scrollVh innerHeight / 2)) 1 := le_min hq0 (by norm_num)
    linarith

/-- C9 witness: with viewport height 2 and the element centered, the intensity
is exactly 1. -/
theorem scroll_intensity_claim_witness : scrollIntensity 1 0 2 = 1 := by
  refine (scroll_intensity_claim 1 0 2 (by norm_num)).1.mpr ?_
  unfold scrollDistance scrollVh
  norm_num

/-! ## Scan state machine lemmas (for C1) -/

lemma scanEvent_preserves_complete (s : ScanState) (e : SceneEvent)
    (h : s.phase = ScanPhase.complete) : (scanEvent s e).phase = ScanPhase.complete := by
  cases e with
  | frame dt =>
    show (scanFrame s dt).phase = ScanPhase.complete
    unfold scanFrame
    rw [if_neg (by rw [h]; exact fun hc => ScanPhase.noConfusion hc)]
    exact h
  | meshLoaded bmin bmax => exact h
  | loadFailed => exact h

lemma scanRun_complete (s : ScanState) (es : List SceneEvent)
    (h : s.phase = ScanPhase.complete) : (scanRun s es).phase = ScanPhase.complete := by
  induction es generalizing s with
  | nil => exact h
  | cons e t ih => exact ih (scanEvent s e) (scanEvent_preserves_complete s e h)

lemma scanEvent_no_revert (s : ScanState) (e : SceneEvent)
    (h : s.phase ≠ (scanEvent s e).phase) :
    s.phase = ScanPhase.scanning ∧ (scanEvent s e).phase = ScanPhase.complete := by
  cases hs : s.phase with
  | complete => exact absurd (scanEvent_preserves_complete s e hs).symm (hs ▸ h)
  | scanning =>
    refine ⟨rfl, ?_⟩
    cases hs2 : (scanEvent s e).phase with
    | complete => rfl
    | scanning => exact absurd (hs.trans hs2.symm) h

lemma scanTrace_cons (s : ScanState) (e : SceneEvent) (es : List SceneEvent) :
    scanTrace s (e :: es) = s :: scanTrace (scanEvent s e) es := rfl

lemma scanTrace_shape (s : ScanState) (es : List SceneEvent) :
    ∃ t, scanTrace s es = s :: t := by
  cases es with
  | nil => exact ⟨[], rfl⟩
  | cons e t => exact ⟨scanTrace (scanEvent s e) t, rfl⟩

lemma phaseChanges_complete (s : ScanState) (es : List SceneEvent)
    (h : s.phase = ScanPhase.complete) : phaseChanges (scanTrace s es) = 0 := by
  induction es generalizing s with
  | nil => rfl
  | cons e t ih =>
    rw [scanTrace_cons]
    rcases scanTrace_shape (scanEvent s e) t with ⟨tl, htl⟩
    rw [htl, phaseChanges]
    have hs2 := scanEvent_preserves_complete s e h
    rw [if_neg (by rw [h, hs2]; simp)]
    have := ih (scanEvent s e) hs2
    rw [htl] at this
    rw [this]

lemma phaseChanges_le_one (s : ScanState) (es : List SceneEvent) :
    phaseChanges (scanTrace s es) ≤ 1 := by
  induction es generalizing s with
  | nil => exact Nat.zero_le 1
  | cons e t ih =>
    rw [scanTrace_cons]
    rcases scanTrace_shape (scanEvent s e) t with ⟨tl, htl⟩
    rw [htl, phaseChanges]
    by_cases hch : s.phase = (scanEvent s e).phase
    · rw [if_neg (by simp [hch])]
      have := ih (scanEvent s e)
      rw [htl] at this
      omega
    · rw [if_pos (by simp [hch])]
      have hc := (scanEvent_no_revert s e hch).2
      have := phaseChanges_complete (scanEvent s e) t hc
      rw [htl] at this
      omega

lemma phaseChanges_zero_imp (s : ScanState) (es : List SceneEvent)
    (h : phaseChanges (scanTrace s es) = 0) : (scanRun s es).phase = s.phase := by
  induction es generalizing s with
  | nil => rfl
  | cons e t ih =>
    rw [scanTrace_cons] at h
    rcases scanTrace_shape (scanEvent s e) t with ⟨tl, htl⟩
    rw [htl, phaseChanges] at h
    have h1 : s.phase = (scanEvent s e).phase := by
      by_contra hne
      rw [if_pos (by simp [hne])] at h
      omega
    have h2 : phaseChanges (scanTrace (scanEvent s e) t) = 0 := by
      rw [htl]; omega
    have := ih (scanEvent s e) h2
    rw [scanRun, List.foldl_cons]
    rw [show (List.foldl scanEvent (scanEvent s e) t) = scanRun (scanEvent s e) t from rfl]
    rw [this, h1]

/-- C1: the scan phase never reverts once complete (under any further
events); while scanning, a render frame flips the phase to complete exactly
when the advanced sweep coordinate exceeds `maxY`; the worker-success reset
and the load-failure event never change the phase; along any event trace the
phase changes at most once, and exactly once when the run starts scanning and
ends complete. -/
theorem scan_phase_transition_claim :
    (∀ s es, s.phase = ScanPhase.complete → (scanRun s es).phase = ScanPhase.complete) ∧
    (∀ s dt, s.phase = ScanPhase.scanning →
      ((scanFrame s dt).phase = ScanPhase.complete ↔ s.maxY < s.scanY + s.scanSpeed * dt)) ∧
    (∀ s bmin bmax, (scanEvent s (SceneEvent.meshLoaded bmin bmax)).phase = s.phase) ∧
    (∀ s, (scanEvent s SceneEvent.loadFailed).phase = s.phase) ∧
    (∀ s es, phaseChanges (scanTrace s es) ≤ 1) ∧
    (∀ s es, s.phase = ScanPhase.scanning → (scanRun s es).phase = ScanPhase.complete →
      phaseChanges (scanTrace s es) = 1) := by
  refine ⟨scanRun_complete, ?_, fun s bmin bmax => rfl, fun s => rfl,
    phaseChanges_le_one, ?_⟩
  · intro s dt hs
    unfold scanFrame
    rw [if_pos hs]
    by_cases hy : s.scanY + s.scanSpeed * dt > s.maxY
    · rw [if_pos hy]
      exact ⟨fun _ => hy, fun _ => rfl⟩
    · rw [if_neg hy]
      constructor
      · intro hc
        exact absurd (hs.symm.trans hc) (by simp)
      · intro hgt
        exact absurd hgt hy
  · intro s es hs hc
    have hle := phaseChanges_le_one s es
    by_contra hne
    have h0 : phaseChanges (scanTrace s es) = 0 := by omega
    have := phaseChanges_zero_imp s es h0
    rw [hc, hs] at this
    exact ScanPhase.noConfusion this

/-- C1 witness: from the initial scene state, one render frame of 4 seconds
crosses `maxY` and completes the scan with exactly one phase change. -/
theorem scan_phase_transition_claim_witness :
    (scanRun initialScanState [SceneEvent.frame 4]).phase = ScanPhase.complete ∧
    phaseChanges (scanTrace initialScanState [SceneEvent.frame 4]) = 1 := by
  have h1 : (scanRun initialScanState [SceneEvent.frame 4]).phase = ScanPhase.complete := by
    show (scanFrame initialScanState 4).phase = ScanPhase.complete
    unfold scanFrame initialScanState
    norm_num
  exact ⟨h1, scan_phase_transition_claim.2.2.2.2.2 initialScanState _ rfl h1⟩

/-- C7: on submit, an invalid e-mail blocks the default submission, marks the
input with the error class and shows the fixed error text; a valid e-mail
leaves the error class off the input, schedules the 1500 ms timer, and the
timer callback shows the confirmation text. -/
theorem waitlist_submit_claim (st : FormUiState) (emailValue : String) :
    (isValidEmail (trimChars emailValue.data).asString = false →
      (submitHandler st emailValue).prevented = true ∧
      ("mk-input--error") ∈ (submitHandler st emailValue).state.emailClasses ∧
      (submitHandler st emailValue).state.messageText = waitlistErrorText) ∧
    (isValidEmail (trimChars emailValue.data).asString = true →
      ("mk-input--error") ∉ (submitHandler st emailValue).state.emailClasses ∧
      (submitHandler st emailValue).timerDelayMs = some 1500 ∧
      (confirmTimerCallback (submitHandler st emailValue).state).messageText
        = waitlistConfirmText) := by
  constructor
  · intro hbad
    unfold submitHandler
    rw [if_pos (by rw [hbad]; rfl)]
    exact ⟨rfl, mem_addClass _ _, rfl⟩
  · intro hgood
    unfold submitHandler
    rw [if_neg (by rw [hgood]; simp)]
    exact ⟨not_mem_removeClass _ _, rfl, rfl⟩

/-- C7 witness: the theorem applied to an empty form state with an invalid and
with a valid concrete address. -/
theorem waitlist_submit_claim_witness :
    (submitHandler ⟨"", [], "", [], none, none⟩ "not an email").prevented = true ∧
    (submitHandler ⟨"", [], "", [], none, none⟩ "user@example.com").timerDelayMs
      = some 1500 := by
  constructor
  · exact ((waitlist_submit_claim ⟨"", [], "", [], none, none⟩ "not an email").1 rfl).1
  · exact ((waitlist_submit_claim ⟨"", [], "", [], none, none⟩ "user@example.com").2 rfl).2.1

/-! ## Pathway opacity lemmas (for C10) -/

lemma jsMod_nonneg (a b : ℚ) (ha : 0 ≤ a) (hb : 0 < b) : 0 ≤ jsMod a b := by
  unfold jsMod jsTruncQ
  rw [if_pos (div_nonneg ha hb.le)]
  have hkey : a - b * (⌊a / b⌋ : ℚ) = b * Int.fract (a / b) := by
    rw [Int.fract]
    field_simp
  rw [hkey]
  exact mul_nonneg hb.le (Int.fract_nonneg _)

lemma pathwayOpacity_bounds (pt duration : ℚ) (hpt : 0 ≤ pt) :
    0 ≤ pathwayOpacity pt duration ∧ pathwayOpacity pt duration ≤ 0.7 := by
  unfold pathwayOpacity
  split
  case isTrue hin =>
    have hdur : 0 < duration := lt_of_le_of_lt hpt hin
    have hp0 : (0 : ℝ) ≤ ((pt / duration : ℚ) : ℝ) := by
      have : (0 : ℚ) ≤ pt / duration := div_nonneg hpt hdur.le
      exact_mod_cast this
    have hp1 : ((pt / duration : ℚ) : ℝ) ≤ 1 := by
      have : (pt / duration : ℚ) ≤ 1 := (div_le_one hdur).mpr hin.le
      exact_mod_cast this
    have hs0 : 0 ≤ Real.sin (((pt / duration : ℚ) : ℝ) * Real.pi) := by
      apply Real.sin_nonneg_of_nonneg_of_le_pi
      · exact mul_nonneg hp0 Real.pi_pos.le
      · calc ((pt / duration : ℚ) : ℝ) * Real.pi ≤ 1 * Real.pi :=
              mul_le_mul_of_nonneg_right hp1 Real.pi_pos.le
          _ = Real.pi := one_mul _
    have hs1 : Real.sin (((pt / duration : ℚ) : ℝ) * Real.pi) ≤ 1 := Real.sin_le_one _
    constructor
    · have := mul_nonneg hs0 (by norm_num : (0 : ℝ) ≤ 0.7)
      linarith
    · nlinarith
  case isFalse hout =>
    split
    case isTrue hfade =>
      have hge : duration ≤ pt := le_of_not_lt hout
      have hq1 : (0 : ℚ) ≤ 0.7 * (1 - (pt - duration) / 0.5) := by
        have h1 : (pt - duration) / 0.5 < 1 := by
          rw [div_lt_one (by norm_num)]
          linarith
        nlinarith
      have hq2 : (0.7 * (1 - (pt - duration) / 0.5) : ℚ) ≤ 0.7 := by
        have h1 : (0 : ℚ) ≤ (pt - duration) / 0.5 :=
          div_nonneg (by linarith) (by norm_num)
        nlinarith
      constructor
      · exact_mod_cast hq1
      · rw [show (0.7 : ℝ) = ((0.7 : ℚ) : ℝ) by norm_num]
        exact_mod_cast hq2
    case isFalse h2 =>
      norm_num

/-- C10: a pathway line material starts at opacity 0, and on every rendered
frame of the complete phase the opacity assigned from the cycle clock (the
fade-in sine, the fade-out ramp, or the constant 0) lies in `[0, 0.7]`. -/
theorem pathway_opacity_claim (cycleTime delay cycleDuration duration : ℚ)
    (hnum : 0 ≤ cycleTime - delay + cycleDuration) (hcd : 0 < cycleDuration) :
    lineMaterialInitialOpacity = 0 ∧
    0 ≤ pathwayOpacity (pathTimeOf cycleTime delay cycleDuration) duration ∧
    pathwayOpacity (pathTimeOf cycleTime delay cycleDuration) duration ≤ 0.7 := by
  have hpt : 0 ≤ pathTimeOf cycleTime delay cycleDuration :=
    jsMod_nonneg _ _ hnum hcd
  exact ⟨rfl, (pathwayOpacity_bounds _ duration hpt).1, (pathwayOpacity_bounds _ duration hpt).2⟩

/-- C10 witness: the bound at cycle start for the first pathway (delay 0,
cycle 8 s, fade duration 1.5 s). -/
theorem pathway_opacity_claim_witness :
    0 ≤ pathwayOpacity (pathTimeOf 0 0 8) (3 / 2) ∧
    pathwayOpacity (pathTimeOf 0 0 8) (3 / 2) ≤ 0.7 := by
  have h := pathway_opacity_claim 0 0 8 (3 / 2) (by norm_num) (by norm_num)
  exact ⟨h.2.1, h.2.2⟩

/-! ## Parser shape lemmas (for C2 and C3) -/

/-- Behaviour of `processLine` on a face line: the guard clauses fall
through, and the face branch appends one position triple and one normal
triple per fan corner. -/
lemma processLine_face (st : ObjState) (line : List Char) (toks : List (List Char))
    (hhash : (trimChars line).head? ≠ some '#')
    (hsplit : splitWsChars (trimChars line) = ['f'] :: toks)
    (hlen : 3 ≤ toks.length) :
    processLine st line =
      { st with
        outPositions := st.outPositions ++
          (fanCorners (toks.map (parseFaceVert st.v st.vn))).flatMap (cornerPositions st.v),
        outNormals := st.outNormals ++
          (fanCorners (toks.map (parseFaceVert st.v st.vn))).flatMap (cornerNormals st.vn) } := by
  have hne : trimChars line ≠ [] := by
    intro h0
    rw [h0] at hsplit
    exact List.noConfusion hsplit
  obtain ⟨a, b, c, r, rfl⟩ : ∃ a b c r, toks = a :: b :: c :: r := by
    rcases toks with _ | ⟨a, _ | ⟨b, _ | ⟨c, r⟩⟩⟩
    · simp only [List.length_nil] at hlen; omega
    · simp only [List.length_cons, List.length_nil] at hlen; omega
    · simp only [List.length_cons, List.length_nil] at hlen; omega
    · exact ⟨a, b, c, r, rfl⟩
  simp only [processLine]
  rw [if_neg hne, if_neg hhash, hsplit]
  rfl

/-- Every line appends the same multiple of three values to the two output
arrays (zero for non-face lines). -/
lemma processLine_out_lengths (st : ObjState) (line : List Char) :
    ∃ k, (processLine st line).outPositions.length = st.outPositions.length + 3 * k ∧
      (processLine st line).outNormals.length = st.outNormals.length + 3 * k := by
  simp only [processLine]
  split
  · exact ⟨0, by simp⟩
  split
  · exact ⟨0, by simp⟩
  split
  · exact ⟨0, by simp⟩
  split
  · split
    · exact ⟨0, by simp⟩
    · exact ⟨0, by simp⟩
  split
  · split
    · exact ⟨0, by simp⟩
    · exact ⟨0, by simp⟩
  split
  · split
    · rename_i a b c tail heq
      refine ⟨(fanCorners ((a :: b :: c :: tail).map (parseFaceVert st.v st.vn))).length,
        ?_, ?_⟩
      · simp only [List.length_append]
        rw [length_flatMap_const _ (cornerPositions st.v) 3
          (fun x _ => cornerPositions_length st.v x)]
      · simp only [List.length_append]
        rw [length_flatMap_const _ (cornerNormals st.vn) 3
          (fun x _ => cornerNormals_length st.vn x)]
    · exact ⟨0, by simp⟩
  · exact ⟨0, by simp⟩

/-- A line consisting of a face marker and exactly three vertex references. -/
def TriFaceLine (l : List Char) : Prop :=
  (trimChars l).head? ≠ some '#' ∧
  ∃ a b c, splitWsChars (trimChars l) = [['f'], a, b, c]

/-- A triangular face line appends exactly nine values (three triples) to
each output array. -/
lemma processLine_tri (st : ObjState) (l : List Char) (h : TriFaceLine l) :
    (processLine st l).outPositions.length = st.outPositions.length + 9 ∧
    (processLine st l).outNormals.length = st.outNormals.length + 9 := by
  obtain ⟨hhash, a, b, c, hsplit⟩ := h
  rw [processLine_face st l [a, b, c] hhash hsplit (by simp)]
  constructor
  · simp only [List.length_append]
    rw [length_flatMap_const _ (cornerPositions st.v) 3
      (fun x _ => cornerPositions_length st.v x), fanCorners_length]
    simp
  · simp only [List.length_append]
    rw [length_flatMap_const _ (cornerNormals st.vn) 3
      (fun x _ => cornerNormals_length st.vn x), fanCorners_length]
    simp

lemma foldl_out_invariant (lines : List (List Char)) (st : ObjState)
    (h1 : st.outPositions.length = st.outNormals.length)
    (h2 : st.outPositions.length % 3 = 0) :
    (lines.foldl processLine st).outPositions.length
        = (lines.foldl processLine st).outNormals.length ∧
    (lines.foldl processLine st).outPositions.length % 3 = 0 := by
  induction lines generalizing st with
  | nil => exact ⟨h1, h2⟩
  | cons l t ih =>
    rw [List.foldl_cons]
    obtain ⟨k, hk1, hk2⟩ := processLine_out_lengths st l
    exact ih (processLine st l) (by rw [hk1, hk2, h1]) (by rw [hk1]; omega)

lemma foldl_tri_lengths (lines : List (List Char)) (st : ObjState)
    (h : ∀ l ∈ lines, TriFaceLine l) :
    (lines.foldl processLine st).outPositions.length
        = st.outPositions.length + 9 * lines.length ∧
    (lines.foldl processLine st).outNormals.length
        = st.outNormals.length + 9 * lines.length := by
  induction lines generalizing st with
  | nil => simp
  | cons l t ih =>
    rw [List.foldl_cons]
    have hstep := processLine_tri st l (h l (by simp))
    have hrest := ih (processLine st l) (fun x hx => h x (by simp [hx]))
    constructor
    · rw [hrest.1, hstep.1, List.length_cons]; ring
    · rw [hrest.2, hstep.2, List.length_cons]; ring

/-- C2: for every input string the parser emits position and normal arrays of
equal length, a multiple of three; and for an input whose lines are all
triangular face lines, each array holds nine values — three triples — per
face line. -/
theorem parser_output_invariant :
    (∀ text : String,
      (parseOBJ text).outPositions.length = (parseOBJ text).outNormals.length ∧
      (parseOBJ text).outPositions.length % 3 = 0) ∧
    (∀ text : String, (∀ l ∈ splitLines text, TriFaceLine l) →
      (parseOBJ text).outPositions.length = 9 * (splitLines text).length ∧
      (parseOBJ text).outNormals.length = 9 * (splitLines text).length) := by
  constructor
  · intro text
    exact foldl_out_invariant (splitLines text) initialObjState rfl rfl
  · intro text h
    have := foldl_tri_lengths (splitLines text) initialObjState h
    simpa [initialObjState] using this

/-- C2 witness: a two-line all-triangles input yields 18 values (6 triples)
in each array. -/
theorem parser_output_invariant_witness :
    (parseOBJ "f 1 2 3\nf 1 2 3").outPositions.length
        = 9 * (splitLines "f 1 2 3\nf 1 2 3").length ∧
    (parseOBJ "f 1 2 3\nf 1 2 3").outPositions.length % 3 = 0 := by
  have hone : TriFaceLine ("f 1 2 3".data) := ⟨by decide, ['1'], ['2'], ['3'], by rfl⟩
  have htri : ∀ l ∈ splitLines "f 1 2 3\nf 1 2 3", TriFaceLine l := by
    intro l hl
    have hsl : splitLines "f 1 2 3\nf 1 2 3" = ["f 1 2 3".data, "f 1 2 3".data] := rfl
    rw [hsl] at hl
    simp only [List.mem_cons, List.not_mem_nil, or_false] at hl
    rcases hl with rfl | rfl
    · exact hone
    · exact hone
  exact ⟨(parser_output_invariant.2 _ htri).1, (parser_output_invariant.1 _).2⟩

/-- C3: a face line with `k ≥ 4` vertex references is fan-triangulated into
`k - 2` triangles — the emitted corner list has `3 * (k - 2)` entries, each
contributing one position triple and one normal triple — and a corner whose
normal reference is missing (fewer than three slash segments, or an empty
third segment) emits the zero vector as its normal triple. -/
theorem face_fan_triangulation (st : ObjState) (line : List Char)
    (toks : List (List Char)) (k : ℕ)
    (hhash : (trimChars line).head? ≠ some '#')
    (hsplit : splitWsChars (trimChars line) = ['f'] :: toks)
    (hk : toks.length = k) (hk4 : 4 ≤ k) :
    (processLine st line).outPositions = st.outPositions ++
      (fanCorners (toks.map (parseFaceVert st.v st.vn))).flatMap (cornerPositions st.v) ∧
    (processLine st line).outNormals = st.outNormals ++
      (fanCorners (toks.map (parseFaceVert st.v st.vn))).flatMap (cornerNormals st.vn) ∧
    (fanCorners (toks.map (parseFaceVert st.v st.vn))).length = 3 * (k - 2) ∧
    (∀ tok ∈ toks, ((splitOnChar '/' tok).get? 2).getD [] = [] →
      cornerNormals st.vn (parseFaceVert st.v st.vn tok) = [some 0, some 0, some 0]) := by
  have hface := processLine_face st line toks hhash hsplit (by omega)
  refine ⟨by rw [hface], by rw [hface], ?_, ?_⟩
  · rw [fanCorners_length, List.length_map, hk]
  · intro tok _ hmiss
    simp only [parseFaceVert]
    rw [if_neg (not_not_intro hmiss)]
    simp only [cornerNormals, jsGe0]
    rw [if_neg (by norm_num)]

/-- C3 witness: the quad face line `f 1 2 3 4` (whose corners all lack a
normal reference) yields `3 * (4 - 2) = 6` emitted corners, and a
reference-free corner emits the zero normal triple. -/
theorem face_fan_triangulation_witness :
    (fanCorners ([['1'], ['2'], ['3'], ['4']].map
        (parseFaceVert initialObjState.v initialObjState.vn))).length = 3 * (4 - 2) ∧
    cornerNormals initialObjState.vn
        (parseFaceVert initialObjState.v initialObjState.vn ['1'])
      = [some 0, some 0, some 0] := by
  have h := face_fan_triangulation initialObjState ("f 1 2 3 4".data)
    [['1'], ['2'], ['3'], ['4']] 4 (by decide) rfl rfl (by norm_num)
  exact ⟨h.2.2.1, h.2.2.2 ['1'] (by simp) rfl⟩

end MemoryKit
